import Mathlib

/-!
Verification of the withdrawal-processing system described in `spec.md`
against the repository's source.  The only code in the repository is the
client example `docs/api/examples/python/withdrawal.py`; its four HTTP
client functions and `__main__` flow are embedded below.  The engine the
spec describes (Idempotency Store, Request Queue, Transaction Queue,
Status Tracker) has no source in the repository, so those components are
modelled from the spec's own words (each such definition says so in its
doc comment).
-/

namespace Withdrawal

/-! ## JSON values and the client example's parsing

`withdrawal.py` treats response bodies as parsed JSON dictionaries.  We
model the fragment of JSON the example touches: objects, strings and
numbers.  `jGet` models Python's `d[key]` on a parsed JSON dict, returning
`none` where Python would raise `KeyError`/`TypeError`. -/

inductive J where
  | str (s : String)
  | num (n : Nat)
  | obj (fields : List (String × J))

def jGet : J → String → Option J
  | J.obj fields, k => (fields.find? (fun p => p.1 == k)).map (·.2)
  | _, _ => none

/-- Errors a client function can end in instead of returning a value:
a `requests.exceptions.RequestException` (connection failure or
`raise_for_status` on a 4xx/5xx response), a JSON decode failure from
`response.json()`, or a `KeyError` while indexing into the body. -/
inductive ClientErr where
  | requestException
  | jsonDecodeError
  | keyError
  deriving DecidableEq, Repr

/-- Outcome of one HTTP round trip as seen by the `requests` library:
either a transport-level failure (raises `RequestException` before any
response exists) or a response with a status code and a body
(`none` when the body is not valid JSON, so `response.json()` raises). -/
inductive HttpOutcome where
  | netError
  | response (status : Nat) (body : Option J)

/-- Model of `response.raise_for_status()`: it raises `HTTPError` exactly when
`400 <= status_code < 600`; lower codes (including 1xx and 3xx) pass. -/
def raisesForStatus (status : Nat) : Bool :=
  400 ≤ status && status < 600

/-- Embeds `submit_withdrawal` (withdrawal.py lines 8-28): POSTs the payload,
calls `raise_for_status`, parses the body and returns
`data['data']['id']`.  A `RequestException` is printed and re-raised;
a missing key raises `KeyError` (uncaught in the function). -/
def submit_withdrawal (o : HttpOutcome) : Except ClientErr J :=
  match o with
  | HttpOutcome.netError => Except.error ClientErr.requestException
  | HttpOutcome.response status body =>
    if raisesForStatus status then Except.error ClientErr.requestException
    else match body with
      | none => Except.error ClientErr.jsonDecodeError
      | some data =>
        match (jGet data "data").bind (fun d => jGet d "id") with
        | none => Except.error ClientErr.keyError
        | some v => Except.ok v

/-- Embeds `check_status` (withdrawal.py lines 30-44): GETs
`/withdrawal/status/{transaction_id}`, calls `raise_for_status`, and
returns the parsed body unchanged. -/
def check_status (o : HttpOutcome) : Except ClientErr J :=
  match o with
  | HttpOutcome.netError => Except.error ClientErr.requestException
  | HttpOutcome.response status body =>
    if raisesForStatus status then Except.error ClientErr.requestException
    else match body with
      | none => Except.error ClientErr.jsonDecodeError
      | some data => Except.ok data

/-- Embeds `get_request_queue_status` (withdrawal.py lines 46-58): GETs
`/withdrawal/request-queue/status` and returns the parsed body. -/
def get_request_queue_status (o : HttpOutcome) : Except ClientErr J :=
  match o with
  | HttpOutcome.netError => Except.error ClientErr.requestException
  | HttpOutcome.response status body =>
    if raisesForStatus status then Except.error ClientErr.requestException
    else match body with
      | none => Except.error ClientErr.jsonDecodeError
      | some data => Except.ok data

/-- Embeds `get_tx_queue_status` (withdrawal.py lines 60-72): GETs
`/withdrawal/tx-queue/status` and returns the parsed body. -/
def get_tx_queue_status (o : HttpOutcome) : Except ClientErr J :=
  match o with
  | HttpOutcome.netError => Except.error ClientErr.requestException
  | HttpOutcome.response status body =>
    if raisesForStatus status then Except.error ClientErr.requestException
    else match body with
      | none => Except.error ClientErr.jsonDecodeError
      | some data => Except.ok data

/-- One endpoint invocation of the `__main__` flow
(withdrawal.py lines 74-90).  `statusCall` records the id value passed
verbatim into the `/withdrawal/status/{id}` URL. -/
inductive Call where
  | submitCall
  | statusCall (id : J)
  | reqQueueCall
  | txQueueCall

/-- The `__main__` block (withdrawal.py lines 74-90): submit, sleep,
check status with the returned id, then the two queue-status calls, the
whole sequence wrapped in `try/except Exception`.  Returns the list of
endpoint invocations in order and whether an exception escaped
(`true` would be abnormal termination; the catch-all makes it `false`). -/
def runMain (o1 o2 o3 o4 : HttpOutcome) : List Call × Bool :=
  match submit_withdrawal o1 with
  | Except.error _ => ([Call.submitCall], false)
  | Except.ok txId =>
    match check_status o2 with
    | Except.error _ => ([Call.submitCall, Call.statusCall txId], false)
    | Except.ok _ =>
      match get_request_queue_status o3 with
      | Except.error _ =>
        ([Call.submitCall, Call.statusCall txId, Call.reqQueueCall], false)
      | Except.ok _ =>
        match get_tx_queue_status o4 with
        | _ =>
          ([Call.submitCall, Call.statusCall txId, Call.reqQueueCall,
            Call.txQueueCall], false)

/-! ## Status Tracker state machine (spec §4.3) -/

/-- Modelled from the spec: the queryable states of §4.3's Status Tracker
state machine.  `REPLACED` is recorded only in history, never as a
queryable state, so it is not a constructor here. -/
inductive WState where
  | PENDING
  | QUEUED
  | SUBMITTED
  | CONFIRMING
  | CONFIRMED
  | FAILED
  deriving DecidableEq, Repr

open WState

/-- Modelled from the spec: the allowed transitions of §4.3 —
`PENDING→QUEUED→SUBMITTED→CONFIRMING→CONFIRMED`, with `FAILED`
reachable from each of the four non-terminal states. -/
def allowedTransition : WState → WState → Bool
  | PENDING, QUEUED => true
  | QUEUED, SUBMITTED => true
  | SUBMITTED, CONFIRMING => true
  | CONFIRMING, CONFIRMED => true
  | PENDING, FAILED => true
  | QUEUED, FAILED => true
  | SUBMITTED, FAILED => true
  | CONFIRMING, FAILED => true
  | _, _ => false

/-- Modelled from the spec: `CONFIRMED` (terminal success) and `FAILED`
(terminal failure) are the terminal states of §4.3. -/
def terminalState : WState → Bool
  | CONFIRMED => true
  | FAILED => true
  | _ => false

/-- Forward progress measure on states: each allowed transition strictly
increases it, which makes "no backward move" provable. -/
def stateRank : WState → Nat
  | PENDING => 0
  | QUEUED => 1
  | SUBMITTED => 2
  | CONFIRMING => 3
  | CONFIRMED => 4
  | FAILED => 4

/-! ## Status record and the per-withdrawal event machine
(spec §4.3, §4.4, §5, §7) -/

/-- Modelled from the spec: the queryable projection of a `StatusRecord`
(§3) — current state, last known transaction hash, confirmation count. -/
structure WStatus where
  state : WState
  txHash : Option String
  confirmations : Nat
  deriving DecidableEq, Repr

/-- Modelled from the spec: the events that drive one withdrawal's status
after admission (§4.3 transition rules, §4.4 failure semantics, §5
cancellation).  `transientError` is a retryable Network Adapter failure
with retries remaining; `retryExhausted` is the maximum-retry /
maximum-fee-bump policy limit; `chainReject` is a chain-confirmed
rejection; `cancel` is a client cancellation, honoured only before the
withdrawal reaches `QUEUED` (§5).  Post-admission validation rejection is
impossible by construction (§4.3) and has no event. -/
inductive SEvent where
  | dequeue
  | broadcastOk (h : String)
  | included
  | observeConfirm
  | transientError
  | chainReject
  | retryExhausted
  | cancel
  deriving DecidableEq, Repr

/-- Modelled from the spec: one status transition (§4.3 transition rules,
§4.4 failure semantics, §5 cancellation), given the network's finality
threshold.  `none` means the event is not applicable in the current
state.  A `transientError` leaves the status unchanged (retried with
backoff while the withdrawal remains `QUEUED`/`SUBMITTED`). -/
def sstep (threshold : Nat) (st : WStatus) : SEvent → Option WStatus
  | SEvent.dequeue =>
    match st.state with
    | PENDING => some { st with state := QUEUED }
    | _ => none
  | SEvent.broadcastOk h =>
    match st.state with
    | QUEUED => some { st with state := SUBMITTED, txHash := some h }
    | _ => none
  | SEvent.included =>
    match st.state with
    | SUBMITTED => some { st with state := CONFIRMING }
    | _ => none
  | SEvent.observeConfirm =>
    match st.state with
    | CONFIRMING =>
      let c := st.confirmations + 1
      if threshold ≤ c then some { st with state := CONFIRMED, confirmations := c }
      else some { st with confirmations := c }
    | _ => none
  | SEvent.transientError =>
    match st.state with
    | QUEUED => some st
    | SUBMITTED => some st
    | _ => none
  | SEvent.chainReject =>
    match st.state with
    | QUEUED => some { st with state := FAILED }
    | SUBMITTED => some { st with state := FAILED }
    | CONFIRMING => some { st with state := FAILED }
    | _ => none
  | SEvent.retryExhausted =>
    match st.state with
    | QUEUED => some { st with state := FAILED }
    | SUBMITTED => some { st with state := FAILED }
    | CONFIRMING => some { st with state := FAILED }
    | _ => none
  | SEvent.cancel =>
    match st.state with
    | PENDING => some { st with state := FAILED }
    | _ => none

/-- Status of a freshly admitted withdrawal: state `PENDING`, no
transaction hash, no confirmations (§4.2). -/
def initialStatus : WStatus := ⟨PENDING, none, 0⟩

/-- Run a list of status events from a given status; fails as soon as an
event is not applicable. -/
def runSEvents (threshold : Nat) (st : WStatus) : List SEvent → Option WStatus
  | [] => some st
  | e :: es => (sstep threshold st e).bind (fun st2 => runSEvents threshold st2 es)

/-! ## Transaction Queue: per-partition nonce sequencer (spec §4.4, §3) -/

/-- Modelled from the spec: a `QueuedTransaction` of §3, restricted to the
fields the nonce invariant concerns — the withdrawal it serves, its
nonce, and whether it has been superseded by a fee-bumped replacement
("active" means not superseded). -/
structure QTx where
  withdrawalId : Nat
  nonce : Nat
  superseded : Bool
  deriving DecidableEq, Repr

/-- Modelled from the spec: the state of one `(network, sourceAccount)`
partition's sequencer (§4.4): the live `QueuedTransaction`s in creation
order and the next nonce to allocate.  The single-owner worker discipline
of §4.4/§5 serialises its operations, so a sequential event list covers
all its behaviours. -/
structure PartState where
  txs : List QTx
  nextNonce : Nat
  deriving DecidableEq, Repr

/-- Modelled from the spec: the sequencer operations of §4.4 that touch
nonces — `alloc w` allocates the next nonce to a fresh
`QueuedTransaction` for withdrawal `w` (at most one per withdrawal), and
`bump w` issues a fee-bumped replacement reusing the same nonce, marking
the superseded transaction and keeping it in history (§4.4 confirmation
monitoring, design note on one-to-many replacement). -/
inductive TEvent where
  | alloc (w : Nat)
  | bump (w : Nat)
  deriving DecidableEq, Repr

/-- A transaction that has not been superseded by a replacement. -/
def QTx.active (t : QTx) : Bool := !t.superseded

/-- Mark every active transaction of withdrawal `w` as superseded. -/
def supersedeFor (w : Nat) (ts : List QTx) : List QTx :=
  ts.map (fun t => if t.active && t.withdrawalId == w then { t with superseded := true } else t)

/-- Modelled from the spec: one sequencer step (§4.4).  `alloc w` is
guarded on `w` having no `QueuedTransaction` yet (one per (network,
source-account) nonce slot once a request is picked, §3) and assigns
`nextNonce`; `bump w` is guarded on `w` having an active transaction and
appends a replacement carrying the same nonce. -/
def tstep (s : PartState) : TEvent → Option PartState
  | TEvent.alloc w =>
    if s.txs.all (fun t => t.withdrawalId != w) then
      some { txs := s.txs ++ [⟨w, s.nextNonce, false⟩], nextNonce := s.nextNonce + 1 }
    else none
  | TEvent.bump w =>
    match s.txs.find? (fun t => t.active && t.withdrawalId == w) with
    | none => none
    | some t =>
      some { s with txs := supersedeFor w s.txs ++ [⟨w, t.nonce, false⟩] }

/-- Sequencer state at start-up for a partition whose on-chain account
nonce is `n0`: no live transactions, next nonce `n0` (§4.4 nonce/sequence
lookup via the Network Adapter). -/
def initPart (n0 : Nat) : PartState := ⟨[], n0⟩

/-- Run a list of sequencer events; fails as soon as a guard is violated. -/
def runTEvents (s : PartState) : List TEvent → Option PartState
  | [] => some s
  | e :: es => (tstep s e).bind (fun s2 => runTEvents s2 es)

/-- Number of active transactions holding nonce `k`. -/
def activeNonceCount (s : PartState) (k : Nat) : Nat :=
  s.txs.countP (fun t => t.active && t.nonce == k)

/-- Number of active transactions serving withdrawal `w`. -/
def activeWidCount (s : PartState) (w : Nat) : Nat :=
  s.txs.countP (fun t => t.active && t.withdrawalId == w)

/-- The nonces of the partition's active (non-superseded) transactions. -/
def activeNonces (s : PartState) : List Nat :=
  (s.txs.filter QTx.active).map QTx.nonce

/-! ## Request Queue and admission (spec §4.1, §4.2, §6, §7) -/

/-- Numeric value of a decimal digit character. -/
def digitVal (c : Char) : Nat := c.toNat - '0'.toNat

/-- Value of a non-empty all-digit string read in base 10. -/
def digitsToNat (cs : List Char) : Nat :=
  cs.foldl (fun acc c => acc * 10 + digitVal c) 0

/-- Split a character list into the maximal groups separated by `'.'`. -/
def splitOnDot : List Char → List (List Char)
  | [] => [[]]
  | c :: cs =>
    if c = '.' then [] :: splitOnDot cs
    else
      match splitOnDot cs with
      | [] => [[c]]
      | g :: gs => (c :: g) :: gs

/-- Modelled from the spec: §6 — amounts are transmitted as decimal
strings and parsed into fixed-point integers in minor units, never
floating point.  Accepts `"<digits>"` or `"<digits>.<digits>"` with at
most `decimals` fractional digits; rejects anything else. -/
def parseFixedPoint (decimals : Nat) (s : String) : Option Nat :=
  match splitOnDot s.toList with
  | [ip] =>
    if ip ≠ [] ∧ ip.all Char.isDigit then
      some (digitsToNat ip * 10 ^ decimals)
    else none
  | [ip, fp] =>
    if ip ≠ [] ∧ ip.all Char.isDigit ∧ fp ≠ [] ∧
        fp.all Char.isDigit ∧ fp.length ≤ decimals then
      some (digitsToNat ip * 10 ^ decimals +
            digitsToNat fp * 10 ^ (decimals - fp.length))
    else none
  | _ => none

/-- Hexadecimal digit (either case). -/
def isHexDigit (c : Char) : Bool :=
  c.isDigit || ('a' ≤ c && c ≤ 'f') || ('A' ≤ c && c ≤ 'F')

/-- Modelled from the spec: §6 — addresses are validated per the target
network's canonical format; for the EVM networks here that is `0x`
followed by 40 hexadecimal digits. -/
def isHexAddress (s : String) : Bool :=
  match s.toList with
  | '0' :: 'x' :: rest => rest.length == 40 && rest.all isHexDigit
  | _ => false

/-- Modelled from the spec: the enum of supported chains (§3); the
visible material names `polygon`. -/
def supportedNetworks : List String := ["ethereum", "polygon"]

/-- Modelled from the spec: decimal places of a network's native minor
unit (18 for the EVM networks here). -/
def decimalsFor (_network : String) : Nat := 18

/-- Modelled from the spec: the custodial source account the engine uses
for a network — the request body carries no source account, so the engine
derives the partition's account from the network. -/
def sourceAccountFor (network : String) : String := "custodial:" ++ network

/-- A `(network, sourceAccount)` partition key (§4.2, §4.4). -/
def Partition : Type := String × String

instance : BEq Partition := inferInstanceAs (BEq (String × String))
instance : LawfulBEq Partition := inferInstanceAs (LawfulBEq (String × String))
instance : DecidableEq Partition := inferInstanceAs (DecidableEq (String × String))

/-- The body of `POST withdrawal/request` (§6), plus the optional
client-supplied idempotency key (§3). -/
structure SubmitInput where
  amount : String
  toAddress : String
  tokenAddress : String
  network : String
  idempotencyKey : Option String
  deriving DecidableEq, Repr

/-- Modelled from the spec: §3 — the idempotency key is derived
deterministically from caller-supplied fields when not explicitly given. -/
def deriveKey (inp : SubmitInput) : String :=
  inp.amount ++ "|" ++ inp.toAddress ++ "|" ++ inp.tokenAddress ++ "|" ++ inp.network

/-- The idempotency key under which a submission is deduplicated. -/
def keyOf (inp : SubmitInput) : String :=
  inp.idempotencyKey.getD (deriveKey inp)

/-- The partition an admitted submission is enqueued onto (§4.2). -/
def partitionOf (inp : SubmitInput) : Partition :=
  (inp.network, sourceAccountFor inp.network)

/-- Typed validation rejections (§7 `ValidationError`). -/
inductive VErr where
  | badAmount
  | badToAddress
  | badTokenAddress
  | badNetwork
  deriving DecidableEq, Repr

/-- Modelled from the spec: admission-time field validation (§4.2, §6,
§3 invariant `amount > 0`).  On success returns the parsed fixed-point
amount in minor units. -/
def validate (inp : SubmitInput) : Except VErr Nat :=
  match parseFixedPoint (decimalsFor inp.network) inp.amount with
  | none => Except.error VErr.badAmount
  | some a =>
    if a == 0 then Except.error VErr.badAmount
    else if !(isHexAddress inp.toAddress) then Except.error VErr.badToAddress
    else if !(isHexAddress inp.tokenAddress) then Except.error VErr.badTokenAddress
    else if !(supportedNetworks.contains inp.network) then Except.error VErr.badNetwork
    else Except.ok a

/-- Modelled from the spec: a `WithdrawalRequest` (§3), immutable once
admitted. -/
structure WReq where
  id : Nat
  amount : Nat
  toAddress : String
  tokenAddress : String
  network : String
  idempotencyKey : String
  createdAt : Nat
  deriving DecidableEq, Repr

/-- Modelled from the spec: the engine state the admission path touches —
the Idempotency Store's key-to-id mapping (§4.1), the persisted
`WithdrawalRequest`s, the `StatusRecord`s (§3), the per-partition pending
FIFO of the Transaction Queue hand-off (§4.2), the id allocator and a
logical clock for `createdAt`. -/
structure SysState where
  idem : List (String × Nat)
  requests : List WReq
  statuses : List (Nat × WStatus)
  pending : List (Partition × Nat)
  nextId : Nat
  clock : Nat

/-- The engine's empty start-up state. -/
def initState : SysState := ⟨[], [], [], [], 0, 0⟩

/-- Result of one `submit` call (§4.2, §7): admission with a fresh id,
idempotent hit returning the existing id, a typed validation rejection,
or failure because the Idempotency Store is unavailable. -/
inductive SubmitResult where
  | admitted (id : Nat)
  | alreadyExists (id : Nat)
  | rejected (e : VErr)
  | storeUnavailable
  deriving DecidableEq, Repr

/-- Modelled from the spec: `submit` (§4.2) — validate; reserve the
idempotency key atomically (§4.1); on `AlreadyExists` return the existing
id with no state change; on `Admitted` persist the `WithdrawalRequest`,
emit `StatusRecord` state `PENDING`, and enqueue onto the
`(network, sourceAccount)` partition — one transactional boundary, so a
submission either happens entirely or not at all (§7 no-partial-state).
`avail` is whether the Idempotency Store is reachable; when it is not,
the submission fails with no state change (§4.2 failure). -/
def submit (avail : Bool) (inp : SubmitInput) (s : SysState) :
    SubmitResult × SysState :=
  match validate inp with
  | Except.error e => (SubmitResult.rejected e, s)
  | Except.ok amt =>
    if avail then
      match s.idem.find? (fun q => q.1 == keyOf inp) with
      | some q => (SubmitResult.alreadyExists q.2, s)
      | none =>
        let id := s.nextId
        let req : WReq :=
          ⟨id, amt, inp.toAddress, inp.tokenAddress, inp.network, keyOf inp, s.clock⟩
        (SubmitResult.admitted id,
         { idem := (keyOf inp, id) :: s.idem,
           requests := s.requests ++ [req],
           statuses := s.statuses ++ [(id, initialStatus)],
           pending := s.pending ++ [(partitionOf inp, id)],
           nextId := id + 1,
           clock := s.clock + 1 })
    else (SubmitResult.storeUnavailable, s)

/-- Sequential serialisation of `n` concurrent submissions of the same
input: §4.1's atomic reserve primitive linearises concurrent callers, so
every interleaving is some sequential order, and identical calls make the
order irrelevant. -/
def submitMany (inp : SubmitInput) : Nat → SysState → List SubmitResult × SysState
  | 0, s => ([], s)
  | n + 1, s =>
    let r1 := submit true inp s
    let rest := submitMany inp n r1.2
    (r1.1 :: rest.1, rest.2)

/-- The `StatusRecord` projection `getStatus` returns for a withdrawal id
(§4.3), `none` for `NotFound`. -/
def statusOf (s : SysState) (wid : Nat) : Option WStatus :=
  (s.statuses.find? (fun q => q.1 == wid)).map (·.2)

/-- Replace withdrawal `wid`'s status record. -/
def setStatus (wid : Nat) (st : WStatus)
    (statuses : List (Nat × WStatus)) : List (Nat × WStatus) :=
  statuses.map (fun q => if q.1 == wid then (wid, st) else q)

/-- Apply one post-admission status event to withdrawal `wid` (§4.3);
`none` when the withdrawal is unknown or the event is not applicable. -/
def txEvent (threshold : Nat) (wid : Nat) (e : SEvent) (s : SysState) :
    Option SysState :=
  match statusOf s wid with
  | none => none
  | some st =>
    (sstep threshold st e).map
      (fun st2 => { s with statuses := setStatus wid st2 s.statuses })

/-- Apply a list of post-admission status events to withdrawal `wid`. -/
def txEvents (threshold : Nat) (wid : Nat) : List SEvent → SysState → Option SysState
  | [], s => some s
  | e :: es, s => (txEvent threshold wid e s).bind (txEvents threshold wid es)

/-- Modelled from the spec: the Transaction Queue dequeues the oldest
pending request of partition `p` for signing (§4.2 admission order within
a partition, §4.3 `PENDING→QUEUED` when dequeued), removing it from the
pending FIFO.  Returns the dequeued withdrawal id and the new state. -/
def dequeuePart (threshold : Nat) (p : Partition) (s : SysState) :
    Option (Nat × SysState) :=
  match s.pending.find? (fun q => q.1 == p) with
  | none => none
  | some q =>
    (txEvent threshold q.2 SEvent.dequeue s).map
      (fun s2 => (q.2, { s2 with pending := s.pending.eraseP (fun r => r.1 == p) }))

/-- The pending count `request-queue/status` reports for partition `p`
(§4.2 `queueStatus`). -/
def pendingCount (s : SysState) (p : Partition) : Nat :=
  s.pending.countP (fun q => q.1 == p)

/-- The ordered history of states a `StatusRecord` records (§3): starting
from the accumulated history `acc` (most recent state last, equal to
`st.state`), apply the events, appending a state to the history exactly
when an event changes it (a retried `transientError` records nothing). -/
def runHist (threshold : Nat) (st : WStatus) (acc : List WState) :
    List SEvent → Option (List WState)
  | [] => some acc
  | e :: es =>
    (sstep threshold st e).bind fun st2 =>
      runHist threshold st2
        (if st2.state = st.state then acc else acc ++ [st2.state]) es

/-- The state history a withdrawal's `StatusRecord` holds after the given
post-admission events: it starts at `PENDING` (§4.2). -/
def statusHistory (threshold : Nat) (es : List SEvent) : Option (List WState) :=
  runHist threshold initialStatus [initialStatus.state] es

/-- The concrete request body of the spec's §8 scenario and of
`submit_withdrawal`'s payload (withdrawal.py lines 11-16). -/
def scenarioInput : SubmitInput :=
  ⟨"0.5", "0x742d35Cc6634C0532925a3b844Bc9e7595f7fAEd",
    "0x0000000000000000000000000000000000000000", "polygon", none⟩

/-- Engine state right after the scenario submission is admitted. -/
def scenarioS1 : SysState :=
  { idem := [(keyOf scenarioInput, 0)],
    requests := [⟨0, 500000000000000000, scenarioInput.toAddress,
      scenarioInput.tokenAddress, scenarioInput.network, keyOf scenarioInput, 0⟩],
    statuses := [(0, ⟨PENDING, none, 0⟩)],
    pending := [(partitionOf scenarioInput, 0)],
    nextId := 1,
    clock := 1 }

/-- Engine state after the Transaction Queue dequeues the scenario
withdrawal. -/
def scenarioS2 : SysState :=
  { idem := scenarioS1.idem,
    requests := scenarioS1.requests,
    statuses := [(0, ⟨QUEUED, none, 0⟩)],
    pending := [],
    nextId := 1,
    clock := 1 }

/-- Engine state after the scenario withdrawal is broadcast with hash
`h`. -/
def scenarioS3 (h : String) : SysState :=
  { idem := scenarioS1.idem,
    requests := scenarioS1.requests,
    statuses := [(0, ⟨SUBMITTED, some h, 0⟩)],
    pending := [],
    nextId := 1,
    clock := 1 }

/-- Engine state after the scenario withdrawal is confirmed at
threshold 1 with hash `"0xabc"`. -/
def scenarioS4 : SysState :=
  { idem := scenarioS1.idem,
    requests := scenarioS1.requests,
    statuses := [(0, ⟨CONFIRMED, some "0xabc", 1⟩)],
    pending := [],
    nextId := 1,
    clock := 1 }

/-- The correspondence §4.2 demands between the Idempotency Store and the
persisted `WithdrawalRequest`s: no request without its reservation and no
reservation without its request. -/
def reservationConsistent (s : SysState) : Prop :=
  (∀ r ∈ s.requests, ∃ q ∈ s.idem, q.1 = r.idempotencyKey ∧ q.2 = r.id)
  ∧ (∀ q ∈ s.idem, ∃ r ∈ s.requests, r.idempotencyKey = q.1 ∧ r.id = q.2)

/-- The reachable-state invariant of one partition's sequencer (§3, §4.4):
the active transactions hold exactly the nonces `n0 ≤ k < nextNonce`,
one transaction per nonce, and each withdrawal has at most one active
transaction. -/
def PartInv (n0 : Nat) (s : PartState) : Prop :=
  n0 ≤ s.nextNonce
  ∧ (∀ k, activeNonceCount s k =
      if n0 ≤ k ∧ k < s.nextNonce then 1 else 0)
  ∧ (∀ w, activeWidCount s w ≤ 1)

/-! ## Claims about the client example (withdrawal.py) -/

/-- Claim C6, counterexample: the claim says the response body carries the
assigned withdrawal id at the top level (`{id}`) and that
`submit_withdrawal` returns that id — but on a 2xx response whose body is
a top-level `{id: 7}`, the client's `data['data']['id']` lookup raises
`KeyError` instead of returning the id, so the two halves of the claim
cannot both hold of the code. -/
theorem submit_withdrawal_toplevel_id_fails :
    submit_withdrawal
      (HttpOutcome.response 200 (some (J.obj [("id", J.num 7)]))) =
      Except.error ClientErr.keyError := by
  rfl

/-- Claim C6 (amended): for every successful `POST withdrawal/request`
response, the body nests the assigned id under a top-level `data` field
(`{data: {id}}`), and the client's `submit_withdrawal` returns exactly
that nested id. -/
theorem submit_withdrawal_returns_nested_id (st : Nat) (v : J)
    (hst : st < 400) :
    submit_withdrawal
      (HttpOutcome.response st (some (J.obj [("data", J.obj [("id", v)])]))) =
      Except.ok v := by
  have hrs : raisesForStatus st = false := by
    simp [raisesForStatus]
    omega
  simp [submit_withdrawal, hrs, jGet, List.find?]

/-- Claim C6 witness: instantiation at status 200 and id 7. -/
theorem submit_withdrawal_returns_nested_id_witness :
    submit_withdrawal
      (HttpOutcome.response 200 (some (J.obj [("data", J.obj [("id", J.num 7)])]))) =
      Except.ok (J.num 7) :=
  submit_withdrawal_returns_nested_id 200 (J.num 7) (by decide)

/-- Claim C9, counterexample: the claim says a value is returned only
when the HTTP response has a success (2xx) status — but a 304 response
passes `raise_for_status` (which raises only for 400-599), so
`get_request_queue_status` returns data derived from a non-2xx
response. -/
theorem queue_status_returns_on_304 :
    get_request_queue_status (HttpOutcome.response 304 (some (J.num 3))) =
      Except.ok (J.num 3) ∧ ¬(200 ≤ 304 ∧ 304 < 300) := by
  constructor
  · rfl
  · decide

/-- Claim C9 (amended): for each of the four client functions, a value is
returned only from an actual response whose status passes
`raise_for_status`, i.e. status outside 400-599: a request exception
(transport failure) or a 4xx/5xx response ends in the exception being
re-raised, so no function returns data derived from a 4xx/5xx
response. -/
theorem client_functions_return_only_outside_4xx_5xx :
    (∀ o v, submit_withdrawal o = Except.ok v →
      ∃ st b, o = HttpOutcome.response st (some b) ∧ ¬(400 ≤ st ∧ st < 600))
    ∧ (∀ o v, check_status o = Except.ok v →
      ∃ st b, o = HttpOutcome.response st (some b) ∧ ¬(400 ≤ st ∧ st < 600))
    ∧ (∀ o v, get_request_queue_status o = Except.ok v →
      ∃ st b, o = HttpOutcome.response st (some b) ∧ ¬(400 ≤ st ∧ st < 600))
    ∧ (∀ o v, get_tx_queue_status o = Except.ok v →
      ∃ st b, o = HttpOutcome.response st (some b) ∧ ¬(400 ≤ st ∧ st < 600))
    ∧ (∀ st b, 400 ≤ st → st < 600 →
        submit_withdrawal (HttpOutcome.response st b) =
          Except.error ClientErr.requestException
        ∧ check_status (HttpOutcome.response st b) =
          Except.error ClientErr.requestException
        ∧ get_request_queue_status (HttpOutcome.response st b) =
          Except.error ClientErr.requestException
        ∧ get_tx_queue_status (HttpOutcome.response st b) =
          Except.error ClientErr.requestException)
    ∧ (submit_withdrawal HttpOutcome.netError =
        Except.error ClientErr.requestException
      ∧ check_status HttpOutcome.netError =
        Except.error ClientErr.requestException
      ∧ get_request_queue_status HttpOutcome.netError =
        Except.error ClientErr.requestException
      ∧ get_tx_queue_status HttpOutcome.netError =
        Except.error ClientErr.requestException) := by
  refine ⟨?_, ?_, ?_, ?_, ?_, ?_⟩
  · intro o v h
    match o with
    | HttpOutcome.netError => exact absurd h (by simp [submit_withdrawal])
    | HttpOutcome.response st b =>
      by_cases hst : raisesForStatus st = true
      · rw [submit_withdrawal.eq_def] at h
        simp [hst] at h
      · refine ⟨st, ?_⟩
        have hlt : ¬(400 ≤ st ∧ st < 600) := by
          simp [raisesForStatus] at hst
          omega
        match b with
        | none => exact absurd h (by simp [submit_withdrawal, hst])
        | some data => exact ⟨data, rfl, hlt⟩
  · intro o v h
    match o with
    | HttpOutcome.netError => exact absurd h (by simp [check_status])
    | HttpOutcome.response st b =>
      by_cases hst : raisesForStatus st = true
      · rw [check_status.eq_def] at h
        simp [hst] at h
      · refine ⟨st, ?_⟩
        have hlt : ¬(400 ≤ st ∧ st < 600) := by
          simp [raisesForStatus] at hst
          omega
        match b with
        | none => exact absurd h (by simp [check_status, hst])
        | some data => exact ⟨data, rfl, hlt⟩
  · intro o v h
    match o with
    | HttpOutcome.netError => exact absurd h (by simp [get_request_queue_status])
    | HttpOutcome.response st b =>
      by_cases hst : raisesForStatus st = true
      · rw [get_request_queue_status.eq_def] at h
        simp [hst] at h
      · refine ⟨st, ?_⟩
        have hlt : ¬(400 ≤ st ∧ st < 600) := by
          simp [raisesForStatus] at hst
          omega
        match b with
        | none => exact absurd h (by simp [get_request_queue_status, hst])
        | some data => exact ⟨data, rfl, hlt⟩
  · intro o v h
    match o with
    | HttpOutcome.netError => exact absurd h (by simp [get_tx_queue_status])
    | HttpOutcome.response st b =>
      by_cases hst : raisesForStatus st = true
      · rw [get_tx_queue_status.eq_def] at h
        simp [hst] at h
      · refine ⟨st, ?_⟩
        have hlt : ¬(400 ≤ st ∧ st < 600) := by
          simp [raisesForStatus] at hst
          omega
        match b with
        | none => exact absurd h (by simp [get_tx_queue_status, hst])
        | some data => exact ⟨data, rfl, hlt⟩
  · intro st b hst1 hst2
    have hrs : raisesForStatus st = true := by
      simp [raisesForStatus]
      omega
    refine ⟨?_, ?_, ?_, ?_⟩ <;>
      simp [submit_withdrawal, check_status, get_request_queue_status,
        get_tx_queue_status, hrs]
  · exact ⟨rfl, rfl, rfl, rfl⟩

/-- Claim C9 witness: the submit clause applied at a concrete successful
response. -/
theorem client_functions_return_only_outside_4xx_5xx_witness :
    ∃ st b,
      HttpOutcome.response 200 (some (J.obj [("data", J.obj [("id", J.num 7)])])) =
        HttpOutcome.response st (some b) ∧ ¬(400 ≤ st ∧ st < 600) :=
  client_functions_return_only_outside_4xx_5xx.1
    (HttpOutcome.response 200 (some (J.obj [("data", J.obj [("id", J.num 7)])])))
    (J.num 7) (by rfl)

/-- Claim C10: the `__main__` flow always terminates normally (the
top-level handler catches every exception); the endpoints are invoked in
the fixed order submit, status, request-queue status, tx-queue status,
stopping early only when a call fails; and the id passed into the status
call is verbatim the id `submit_withdrawal` returned. -/
theorem runMain_normal_termination_and_order (o1 o2 o3 o4 : HttpOutcome) :
    (runMain o1 o2 o3 o4).2 = false
    ∧ ((∃ e, submit_withdrawal o1 = Except.error e
          ∧ (runMain o1 o2 o3 o4).1 = [Call.submitCall])
      ∨ (∃ id, submit_withdrawal o1 = Except.ok id
          ∧ ((∃ e, check_status o2 = Except.error e
                ∧ (runMain o1 o2 o3 o4).1 = [Call.submitCall, Call.statusCall id])
            ∨ (∃ b, check_status o2 = Except.ok b
                ∧ ((∃ e, get_request_queue_status o3 = Except.error e
                      ∧ (runMain o1 o2 o3 o4).1 =
                        [Call.submitCall, Call.statusCall id, Call.reqQueueCall])
                  ∨ (∃ b2, get_request_queue_status o3 = Except.ok b2
                      ∧ (runMain o1 o2 o3 o4).1 =
                        [Call.submitCall, Call.statusCall id, Call.reqQueueCall,
                          Call.txQueueCall])))))) := by
  cases h1 : submit_withdrawal o1 with
  | error e1 => exact ⟨by simp [runMain, h1], Or.inl ⟨e1, rfl, by simp [runMain, h1]⟩⟩
  | ok id =>
    cases h2 : check_status o2 with
    | error e2 =>
      exact ⟨by simp [runMain, h1, h2],
        Or.inr ⟨id, rfl, Or.inl ⟨e2, rfl, by simp [runMain, h1, h2]⟩⟩⟩
    | ok b =>
      cases h3 : get_request_queue_status o3 with
      | error e3 =>
        refine ⟨?_, Or.inr ⟨id, rfl, Or.inr ⟨b, rfl, Or.inl ⟨e3, rfl, ?_⟩⟩⟩⟩ <;>
          cases h4 : get_tx_queue_status o4 <;> simp [runMain, h1, h2, h3, h4]
      | ok b2 =>
        refine ⟨?_, Or.inr ⟨id, rfl, Or.inr ⟨b, rfl, Or.inr ⟨b2, rfl, ?_⟩⟩⟩⟩ <;>
          cases h4 : get_tx_queue_status o4 <;> simp [runMain, h1, h2, h3, h4]

/-! ## Claim C3: recorded status histories are paths through §4.3 -/

/-- Every applicable status event either leaves the state unchanged or
makes a transition §4.3 allows. -/
lemma sstep_allowed (th : Nat) (st : WStatus) (e : SEvent) (st2 : WStatus)
    (h : sstep th st e = some st2) :
    st2.state = st.state ∨ allowedTransition st.state st2.state = true := by
  cases e <;> cases hs : st.state <;> simp [sstep, hs] at h
  case dequeue.PENDING =>
    right; rw [← h]; rfl
  case broadcastOk.QUEUED =>
    right; rw [← h]; rfl
  case included.SUBMITTED =>
    right; rw [← h]; rfl
  case observeConfirm.CONFIRMING =>
    split at h <;> simp only [Option.some.injEq] at h
    · right; rw [← h]; rfl
    · left; rw [← h]
  case transientError.QUEUED =>
    left; rw [← h]; exact hs
  case transientError.SUBMITTED =>
    left; rw [← h]; exact hs
  case chainReject.QUEUED =>
    right; rw [← h]; rfl
  case chainReject.SUBMITTED =>
    right; rw [← h]; rfl
  case chainReject.CONFIRMING =>
    right; rw [← h]; rfl
  case retryExhausted.QUEUED =>
    right; rw [← h]; rfl
  case retryExhausted.SUBMITTED =>
    right; rw [← h]; rfl
  case retryExhausted.CONFIRMING =>
    right; rw [← h]; rfl
  case cancel.PENDING =>
    right; rw [← h]; rfl

/-- Each allowed transition of §4.3 strictly increases the progress
rank: there is no backward move. -/
lemma allowed_rank_lt (a b : WState) (h : allowedTransition a b = true) :
    stateRank a < stateRank b := by
  revert h
  cases a <;> cases b <;> decide

/-- No allowed transition of §4.3 leaves a terminal state. -/
lemma allowed_not_terminal (a b : WState) (h : allowedTransition a b = true) :
    terminalState a = false := by
  revert h
  cases a <;> cases b <;> decide

/-- In a chain, every element except the last has a successor related to
it. -/
lemma chain'_dropLast_next {α : Type} {R : α → α → Prop} :
    ∀ (l : List α), List.Chain' R l → ∀ s ∈ l.dropLast, ∃ t, R s t := by
  intro l
  induction l with
  | nil => intro _ s hs; simp at hs
  | cons a l ih =>
    intro hc s hs
    cases l with
    | nil => simp at hs
    | cons b l2 =>
      rw [List.chain'_cons] at hc
      have hd : (a :: b :: l2).dropLast = a :: (b :: l2).dropLast := rfl
      rw [hd, List.mem_cons] at hs
      rcases hs with hs | hs
      · exact ⟨b, hs ▸ hc.1⟩
      · exact ih hc.2 s hs

/-- The recorded history only ever grows by allowed transitions. -/
lemma runHist_chain (th : Nat) :
    ∀ (es : List SEvent) (st : WStatus) (acc h : List WState),
      runHist th st acc es = some h →
      List.Chain' (fun a b => allowedTransition a b = true) acc →
      acc.getLast? = some st.state →
      List.Chain' (fun a b => allowedTransition a b = true) h
  | [], st, acc, h, hrun, hch, _ => by
    simp [runHist] at hrun
    exact hrun ▸ hch
  | e :: es, st, acc, h, hrun, hch, hlast => by
    rw [runHist] at hrun
    cases hstep : sstep th st e with
    | none => rw [hstep] at hrun; exact absurd hrun (by simp)
    | some st2 =>
      rw [hstep, Option.some_bind] at hrun
      by_cases hsame : st2.state = st.state
      · rw [if_pos hsame] at hrun
        exact runHist_chain th es st2 acc h hrun hch (hsame ▸ hlast)
      · rw [if_neg hsame] at hrun
        have hallowed : allowedTransition st.state st2.state = true := by
          rcases sstep_allowed th st e st2 hstep with h1 | h1
          · exact absurd h1 hsame
          · exact h1
        refine runHist_chain th es st2 (acc ++ [st2.state]) h hrun ?_ ?_
        · rw [List.chain'_append]
          refine ⟨hch, List.chain'_singleton _, ?_⟩
          intro x hx y hy
          rw [hlast] at hx
          have hx2 : st.state = x := by simpa using hx
          have hy2 : st2.state = y := by simpa using hy
          rw [← hx2, ← hy2]
          exact hallowed
        · simp

/-- Claim C3: every state history the Status Tracker records is a path
through the §4.3 state machine — consecutive recorded states are allowed
transitions, the progress rank strictly increases (no backward move), and
no state before the last one is terminal (no transition leaves or
re-enters `CONFIRMED` or `FAILED`). -/
theorem statusHistory_is_state_machine_path (th : Nat) (es : List SEvent)
    (h : List WState) (hh : statusHistory th es = some h) :
    List.Chain' (fun a b => allowedTransition a b = true) h
    ∧ List.Chain' (fun a b => stateRank a < stateRank b) h
    ∧ ∀ s ∈ h.dropLast, terminalState s = false := by
  have hchain : List.Chain' (fun a b => allowedTransition a b = true) h :=
    runHist_chain th es initialStatus [initialStatus.state] h hh
      (List.chain'_singleton _) rfl
  refine ⟨hchain, ?_, ?_⟩
  · exact hchain.imp (fun a b hab => allowed_rank_lt a b hab)
  · intro s hs
    obtain ⟨t, hst⟩ := chain'_dropLast_next h hchain s hs
    exact allowed_not_terminal s t hst

/-- Claim C3 witness: the happy-path history
`PENDING, QUEUED, SUBMITTED, CONFIRMING, CONFIRMED` at threshold 1. -/
theorem statusHistory_is_state_machine_path_witness :
    List.Chain' (fun a b => allowedTransition a b = true)
      [PENDING, QUEUED, SUBMITTED, CONFIRMING, CONFIRMED]
    ∧ List.Chain' (fun a b => stateRank a < stateRank b)
      [PENDING, QUEUED, SUBMITTED, CONFIRMING, CONFIRMED]
    ∧ ∀ s ∈ ([PENDING, QUEUED, SUBMITTED, CONFIRMING, CONFIRMED] : List WState).dropLast,
        terminalState s = false :=
  statusHistory_is_state_machine_path 1
    [SEvent.dequeue, SEvent.broadcastOk "0xabc", SEvent.included,
      SEvent.observeConfirm]
    [PENDING, QUEUED, SUBMITTED, CONFIRMING, CONFIRMED] rfl

/-! ## Claim C4: what can drive a withdrawal to FAILED -/

/-- A step that lands in `FAILED` can only be a chain-confirmed
rejection, retry/fee-bump exhaustion, or a pre-`QUEUED` cancellation;
progress events and retryable transient errors never produce `FAILED`. -/
lemma sstep_failed_cause (th : Nat) (st : WStatus) (e : SEvent) (st2 : WStatus)
    (h : sstep th st e = some st2) (hf : st2.state = FAILED) :
    e = SEvent.chainReject ∨ e = SEvent.retryExhausted ∨ e = SEvent.cancel := by
  cases e
  case chainReject => exact Or.inl rfl
  case retryExhausted => exact Or.inr (Or.inl rfl)
  case cancel => exact Or.inr (Or.inr rfl)
  case dequeue =>
    cases hs : st.state <;> simp [sstep, hs] at h
    rw [← h] at hf
    simp at hf
  case broadcastOk =>
    cases hs : st.state <;> simp [sstep, hs] at h
    rw [← h] at hf
    simp at hf
  case included =>
    cases hs : st.state <;> simp [sstep, hs] at h
    rw [← h] at hf
    simp at hf
  case observeConfirm =>
    cases hs : st.state <;> simp [sstep, hs] at h
    split at h <;> simp only [Option.some.injEq] at h <;>
      (rw [← h] at hf; simp at hf)
  case transientError =>
    cases hs : st.state <;> simp [sstep, hs] at h <;>
      (rw [← h] at hf; rw [hs] at hf; simp at hf)

/-- Along any applicable event run, reaching `FAILED` requires one of the
three failure causes to occur in the run (or having started in
`FAILED`). -/
lemma runS_failed_cause (th : Nat) :
    ∀ (es : List SEvent) (st st' : WStatus),
      runSEvents th st es = some st' → st'.state = FAILED →
      st.state = FAILED ∨
        (SEvent.chainReject ∈ es ∨ SEvent.retryExhausted ∈ es ∨
          SEvent.cancel ∈ es)
  | [], st, st', hrun, hf => by
    simp [runSEvents] at hrun
    exact Or.inl (hrun ▸ hf)
  | e :: es, st, st', hrun, hf => by
    rw [runSEvents] at hrun
    cases hstep : sstep th st e with
    | none => rw [hstep] at hrun; exact absurd hrun (by simp)
    | some st2 =>
      rw [hstep, Option.some_bind] at hrun
      rcases runS_failed_cause th es st2 st' hrun hf with h2 | h2
      · rcases sstep_failed_cause th st e st2 hstep h2 with hc | hc | hc
        · exact Or.inr (Or.inl (hc ▸ List.mem_cons_self e es))
        · exact Or.inr (Or.inr (Or.inl (hc ▸ List.mem_cons_self e es)))
        · exact Or.inr (Or.inr (Or.inr (hc ▸ List.mem_cons_self e es)))
      · rcases h2 with h2 | h2 | h2
        · exact Or.inr (Or.inl (List.mem_cons_of_mem e h2))
        · exact Or.inr (Or.inr (Or.inl (List.mem_cons_of_mem e h2)))
        · exact Or.inr (Or.inr (Or.inr (List.mem_cons_of_mem e h2)))

/-- Claim C4, counterexample: a cancellation before the withdrawal is
dequeued (§5) drives it to `FAILED` although no validation rejection, no
chain-confirmed rejection and no retry/fee-bump exhaustion occurred — so
"FAILED if and only if validation rejection, chain rejection, or
retry/fee-bump exhaustion" is false as stated. -/
theorem cancel_reaches_failed_without_listed_cause :
    runSEvents 1 initialStatus [SEvent.cancel] =
      some ⟨FAILED, none, 0⟩
    ∧ SEvent.chainReject ∉ [SEvent.cancel]
    ∧ SEvent.retryExhausted ∉ [SEvent.cancel] :=
  ⟨rfl, by decide, by decide⟩

/-- Claim C4 (amended): a withdrawal transitions to `FAILED` if and only
if a chain-confirmed rejection, exhaustion of the retry/fee-bump policy,
or a cancellation before it reached `QUEUED` occurred (post-admission
validation rejection is impossible by construction, §4.3); a transient
Network Adapter error while retries remain leaves the status entirely
unchanged and can only happen while the withdrawal is `QUEUED` or
`SUBMITTED`, so it never causes `FAILED`. -/
theorem failed_iff_reject_exhaustion_or_cancel (th : Nat) :
    (∀ es st', runSEvents th initialStatus es = some st' →
      st'.state = FAILED →
      (SEvent.chainReject ∈ es ∨ SEvent.retryExhausted ∈ es ∨
        SEvent.cancel ∈ es))
    ∧ (∀ st st2, sstep th st SEvent.transientError = some st2 →
        st2 = st ∧ (st.state = QUEUED ∨ st.state = SUBMITTED))
    ∧ (∀ st st2, sstep th st SEvent.chainReject = some st2 →
        st2.state = FAILED)
    ∧ (∀ st st2, sstep th st SEvent.retryExhausted = some st2 →
        st2.state = FAILED)
    ∧ (∀ st st2, sstep th st SEvent.cancel = some st2 →
        st2.state = FAILED) := by
  refine ⟨?_, ?_, ?_, ?_, ?_⟩
  · intro es st' hrun hf
    rcases runS_failed_cause th es initialStatus st' hrun hf with h | h
    · exact absurd h (by simp [initialStatus])
    · exact h
  · intro st st2 h
    cases hs : st.state <;> simp [sstep, hs] at h
    · exact ⟨h.symm, Or.inl rfl⟩
    · exact ⟨h.symm, Or.inr rfl⟩
  · intro st st2 h
    cases hs : st.state <;> simp [sstep, hs] at h <;> rw [← h]
  · intro st st2 h
    cases hs : st.state <;> simp [sstep, hs] at h <;> rw [← h]
  · intro st st2 h
    cases hs : st.state <;> simp [sstep, hs] at h
    rw [← h]

/-- Claim C4 witness: the only-if clause applied to the concrete
cancellation run. -/
theorem failed_iff_reject_exhaustion_or_cancel_witness :
    SEvent.chainReject ∈ [SEvent.cancel] ∨
      SEvent.retryExhausted ∈ [SEvent.cancel] ∨
      SEvent.cancel ∈ [SEvent.cancel] :=
  (failed_iff_reject_exhaustion_or_cancel 1).1 [SEvent.cancel]
    ⟨FAILED, none, 0⟩ rfl rfl

/-! ## Claim C7: the polygon submission scenario -/

/-- Updating a present status record leaves it findable with the new
value. -/
lemma find?_setStatus (wid : Nat) (st2 : WStatus) :
    ∀ (l : List (Nat × WStatus)),
      (l.find? (fun q => q.1 == wid)).isSome = true →
      (setStatus wid st2 l).find? (fun q => q.1 == wid) = some (wid, st2) := by
  intro l
  induction l with
  | nil => intro hsome; simp [List.find?] at hsome
  | cons q l ih =>
    intro hsome
    by_cases hq : q.1 = wid
    · have hq2 : (q.1 == wid) = true := by simp [hq]
      have hmap : setStatus wid st2 (q :: l) =
          (wid, st2) :: setStatus wid st2 l := by
        simp [setStatus, hq]
      rw [hmap, List.find?_cons_of_pos _ (by simp)]
    · have hq2 : (q.1 == wid) = false := by simp [hq]
      have hsome2 : (l.find? (fun q => q.1 == wid)).isSome = true := by
        rw [List.find?_cons_of_neg _ (by simp [hq])] at hsome
        exact hsome
      have hmap : setStatus wid st2 (q :: l) = q :: setStatus wid st2 l := by
        simp [setStatus, hq]
      rw [hmap, List.find?_cons_of_neg _ (by simp [hq])]
      exact ih hsome2

/-- Post-admission status events change only the status map: the pending
queues, requests and idempotency reservations are untouched, and the
withdrawal's status follows the per-withdrawal event machine. -/
lemma txEvents_run (th : Nat) (wid : Nat) :
    ∀ (es : List SEvent) (s : SysState) (st st' : WStatus),
      statusOf s wid = some st →
      runSEvents th st es = some st' →
      ∃ s', txEvents th wid es s = some s' ∧ statusOf s' wid = some st' ∧
        s'.pending = s.pending
  | [], s, st, st', hst, hrun => by
    simp [runSEvents] at hrun
    exact ⟨s, by simp [txEvents], hrun ▸ hst, rfl⟩
  | e :: es, s, st, st', hst, hrun => by
    rw [runSEvents] at hrun
    cases hstep : sstep th st e with
    | none => rw [hstep] at hrun; exact absurd hrun (by simp)
    | some st2 =>
      rw [hstep, Option.some_bind] at hrun
      have hsome : (s.statuses.find? (fun q => q.1 == wid)).isSome = true := by
        unfold statusOf at hst
        cases hfind : s.statuses.find? (fun q => q.1 == wid) with
        | none => rw [hfind] at hst; exact absurd hst (by simp)
        | some q => rfl
      have htx : txEvent th wid e s =
          some { s with statuses := setStatus wid st2 s.statuses } := by
        simp only [txEvent, hst, hstep, Option.map_some']
      have hst1 :
          statusOf { s with statuses := setStatus wid st2 s.statuses } wid =
            some st2 := by
        unfold statusOf
        rw [find?_setStatus wid st2 s.statuses hsome]
        rfl
      obtain ⟨s', h1, h2, h3⟩ :=
        txEvents_run th wid es { s with statuses := setStatus wid st2 s.statuses }
          st2 st' hst1 hrun
      refine ⟨s', ?_, h2, h3⟩
      rw [txEvents, htx, Option.some_bind]
      exact h1

/-- From `CONFIRMING`, observing exactly the remaining confirmations up
to the finality threshold reaches `CONFIRMED` (§4.3). -/
lemma runS_confirms (th : Nat) :
    ∀ (n : Nat) (st : WStatus), st.state = CONFIRMING →
      st.confirmations + n = th → 1 ≤ n →
      runSEvents th st (List.replicate n SEvent.observeConfirm) =
        some ⟨CONFIRMED, st.txHash, th⟩
  | 0, st, _, _, hn => by omega
  | 1, st, hst, hsum, _ => by
    rw [List.replicate_succ, List.replicate_zero, runSEvents]
    simp only [sstep, hst]
    rw [if_pos (by omega), Option.some_bind, runSEvents]
    have hc : st.confirmations + 1 = th := by omega
    rw [hc]
  | n + 2, st, hst, hsum, _ => by
    rw [List.replicate_succ, runSEvents]
    simp only [sstep, hst]
    rw [if_neg (by omega), Option.some_bind]
    have := runS_confirms th (n + 1)
      ⟨CONFIRMING, st.txHash, st.confirmations + 1⟩ rfl (by simp; omega)
      (by omega)
    simpa using this

/-- Claim C7: submitting
`{amount: "0.5", toAddress: "0x742d…fAEd", tokenAddress: "0x000…000",
network: "polygon"}` is admitted with an id whose status is first
`PENDING`; after the Transaction Queue dequeues it the status is
`QUEUED`; broadcasting with any non-empty hash `h` makes it `SUBMITTED`
with txHash `some h`; and after the network's finality threshold of
confirmations is observed it is `CONFIRMED`. -/
theorem scenario_polygon_submission_flow (th : Nat) (hth : 1 ≤ th)
    (h : String) (_hh : h ≠ "") :
    ∃ s1 wid s2 s3 s4,
      submit true scenarioInput initState = (SubmitResult.admitted wid, s1)
      ∧ statusOf s1 wid = some ⟨PENDING, none, 0⟩
      ∧ dequeuePart th (partitionOf scenarioInput) s1 = some (wid, s2)
      ∧ statusOf s2 wid = some ⟨QUEUED, none, 0⟩
      ∧ txEvent th wid (SEvent.broadcastOk h) s2 = some s3
      ∧ statusOf s3 wid = some ⟨SUBMITTED, some h, 0⟩
      ∧ txEvents th wid
          (SEvent.included :: List.replicate th SEvent.observeConfirm) s3 =
          some s4
      ∧ statusOf s4 wid = some ⟨CONFIRMED, some h, th⟩ := by
  have hrun : runSEvents th ⟨SUBMITTED, some h, 0⟩
      (SEvent.included :: List.replicate th SEvent.observeConfirm) =
      some ⟨CONFIRMED, some h, th⟩ := by
    have hstep1 : sstep th ⟨SUBMITTED, some h, 0⟩ SEvent.included =
        some ⟨CONFIRMING, some h, 0⟩ := rfl
    rw [runSEvents, hstep1, Option.some_bind]
    exact runS_confirms th th ⟨CONFIRMING, some h, 0⟩ rfl (Nat.zero_add th) hth
  obtain ⟨s4, h41, h42, _⟩ :=
    txEvents_run th 0
      (SEvent.included :: List.replicate th SEvent.observeConfirm)
      (scenarioS3 h) ⟨SUBMITTED, some h, 0⟩ ⟨CONFIRMED, some h, th⟩ rfl hrun
  exact ⟨scenarioS1, 0, scenarioS2, scenarioS3 h, s4,
    rfl, rfl, rfl, rfl, rfl, rfl, h41, h42⟩

/-- Claim C7 witness: threshold 1 and hash `"0xabc"`. -/
theorem scenario_polygon_submission_flow_witness :
    ∃ s1 wid s2 s3 s4,
      submit true scenarioInput initState = (SubmitResult.admitted wid, s1)
      ∧ statusOf s1 wid = some ⟨PENDING, none, 0⟩
      ∧ dequeuePart 1 (partitionOf scenarioInput) s1 = some (wid, s2)
      ∧ statusOf s2 wid = some ⟨QUEUED, none, 0⟩
      ∧ txEvent 1 wid (SEvent.broadcastOk "0xabc") s2 = some s3
      ∧ statusOf s3 wid = some ⟨SUBMITTED, some "0xabc", 0⟩
      ∧ txEvents 1 wid
          (SEvent.included :: List.replicate 1 SEvent.observeConfirm) s3 =
          some s4
      ∧ statusOf s4 wid = some ⟨CONFIRMED, some "0xabc", 1⟩ :=
  scenario_polygon_submission_flow 1 (by decide) "0xabc" (by decide)

/-! ## Claims C1 and C5: admission atomicity and idempotency -/

/-- Once the key is reserved, every further submission with it is an
idempotent hit: it returns the reserved id and changes nothing. -/
lemma submitMany_dup (inp : SubmitInput) (amt : Nat)
    (hval : validate inp = Except.ok amt) :
    ∀ (m : Nat) (s : SysState) (q : String × Nat),
      s.idem.find? (fun r => r.1 == keyOf inp) = some q →
      submitMany inp m s =
        (List.replicate m (SubmitResult.alreadyExists q.2), s)
  | 0, s, q, _ => by simp [submitMany]
  | m + 1, s, q, hfind => by
    have hsub : submit true inp s = (SubmitResult.alreadyExists q.2, s) := by
      simp only [submit, hval, hfind, if_true]
    rw [submitMany, hsub, submitMany_dup inp amt hval m s q hfind,
      List.replicate_succ]

/-- Claim C1: for `n ≥ 1` same-key submissions — serialised in an
arbitrary order by the Idempotency Store's atomic reserve (§4.1), and
mutually identical, so the order is irrelevant — exactly the first
reserve is `Admitted`, all the others observe `AlreadyExists`, every
caller receives the same withdrawal id, and exactly one
`WithdrawalRequest` (the one carrying that key) is created. -/
theorem same_key_submissions_single_admission (inp : SubmitInput)
    (s : SysState) (n amt : Nat)
    (hval : validate inp = Except.ok amt)
    (hfresh : s.idem.find? (fun r => r.1 == keyOf inp) = none)
    (hn : 1 ≤ n) :
    (submitMany inp n s).1 =
      SubmitResult.admitted s.nextId ::
        List.replicate (n - 1) (SubmitResult.alreadyExists s.nextId)
    ∧ (submitMany inp n s).2.requests.length = s.requests.length + 1
    ∧ (submitMany inp n s).2.requests.countP
        (fun r => r.idempotencyKey == keyOf inp) =
      s.requests.countP (fun r => r.idempotencyKey == keyOf inp) + 1 := by
  obtain ⟨m, rfl⟩ : ∃ m, n = m + 1 := ⟨n - 1, by omega⟩
  have hsub : submit true inp s =
      (SubmitResult.admitted s.nextId,
        { idem := (keyOf inp, s.nextId) :: s.idem,
          requests := s.requests ++ [⟨s.nextId, amt, inp.toAddress,
            inp.tokenAddress, inp.network, keyOf inp, s.clock⟩],
          statuses := s.statuses ++ [(s.nextId, initialStatus)],
          pending := s.pending ++ [(partitionOf inp, s.nextId)],
          nextId := s.nextId + 1,
          clock := s.clock + 1 }) := by
    simp only [submit, hval, hfresh, if_true]
  have hfind2 :
      (((keyOf inp, s.nextId) :: s.idem).find? (fun r => r.1 == keyOf inp)) =
        some (keyOf inp, s.nextId) :=
    List.find?_cons_of_pos _ (by simp)
  have hdup := submitMany_dup inp amt hval m
    { idem := (keyOf inp, s.nextId) :: s.idem,
      requests := s.requests ++ [⟨s.nextId, amt, inp.toAddress,
        inp.tokenAddress, inp.network, keyOf inp, s.clock⟩],
      statuses := s.statuses ++ [(s.nextId, initialStatus)],
      pending := s.pending ++ [(partitionOf inp, s.nextId)],
      nextId := s.nextId + 1,
      clock := s.clock + 1 }
    (keyOf inp, s.nextId) hfind2
  rw [submitMany, hsub, hdup]
  refine ⟨by simp, by simp, ?_⟩
  simp [List.countP_append, List.countP_cons]

/-- Claim C1 witness: three concurrent scenario submissions against the
empty engine state. -/
theorem same_key_submissions_single_admission_witness :
    (submitMany scenarioInput 3 initState).1 =
      SubmitResult.admitted 0 ::
        List.replicate 2 (SubmitResult.alreadyExists 0)
    ∧ (submitMany scenarioInput 3 initState).2.requests.length =
      initState.requests.length + 1
    ∧ (submitMany scenarioInput 3 initState).2.requests.countP
        (fun r => r.idempotencyKey == keyOf scenarioInput) =
      initState.requests.countP
        (fun r => r.idempotencyKey == keyOf scenarioInput) + 1 :=
  same_key_submissions_single_admission scenarioInput initState 3
    500000000000000000 rfl rfl (by decide)

/-- Claim C5: a `submit` call is all-or-nothing — either it admits (and
then the `WithdrawalRequest` is persisted, the `PENDING` status record
emitted, the partition queue extended and the key reserved, all in one
step) or it changes no state at all; a validation failure returns the
typed rejection with no state change and no id consumed; Idempotency
Store unavailability fails the submission with no state change; and the
request/reservation correspondence is preserved, so no
`WithdrawalRequest` ever exists without its reservation or vice versa. -/
theorem submit_all_or_nothing (avail : Bool) (inp : SubmitInput)
    (s : SysState) :
    ((∃ id, (submit avail inp s).1 = SubmitResult.admitted id)
      ∨ (submit avail inp s).2 = s)
    ∧ (∀ e, validate inp = Except.error e →
        submit avail inp s = (SubmitResult.rejected e, s))
    ∧ (∀ amt, validate inp = Except.ok amt → avail = false →
        submit avail inp s = (SubmitResult.storeUnavailable, s))
    ∧ (∀ id, (submit avail inp s).1 = SubmitResult.admitted id →
        id = s.nextId
        ∧ ∃ amt, validate inp = Except.ok amt ∧
          (submit avail inp s).2 =
            { idem := (keyOf inp, id) :: s.idem,
              requests := s.requests ++ [⟨id, amt, inp.toAddress,
                inp.tokenAddress, inp.network, keyOf inp, s.clock⟩],
              statuses := s.statuses ++ [(id, initialStatus)],
              pending := s.pending ++ [(partitionOf inp, id)],
              nextId := id + 1,
              clock := s.clock + 1 })
    ∧ (reservationConsistent s → reservationConsistent (submit avail inp s).2) := by
  cases hval : validate inp with
  | error e =>
    have hsub : submit avail inp s = (SubmitResult.rejected e, s) := by
      simp only [submit, hval]
    refine ⟨Or.inr (by rw [hsub]), ?_, ?_, ?_, ?_⟩
    · intro e2 hval2
      cases hval2
      exact hsub
    · intro amt hval2
      cases hval2
    · intro id hid
      rw [hsub] at hid
      cases hid
    · intro hc
      rw [hsub]
      exact hc
  | ok amt =>
    cases avail with
    | false =>
      have hsub : submit false inp s = (SubmitResult.storeUnavailable, s) := by
        simp only [submit, hval, Bool.false_eq_true, if_false]
      refine ⟨Or.inr (by rw [hsub]), ?_, ?_, ?_, ?_⟩
      · intro e2 hval2
        cases hval2
      · intro amt2 _ _
        exact hsub
      · intro id hid
        rw [hsub] at hid
        cases hid
      · intro hc
        rw [hsub]
        exact hc
    | true =>
      cases hfind : s.idem.find? (fun r => r.1 == keyOf inp) with
      | some q =>
        have hsub : submit true inp s = (SubmitResult.alreadyExists q.2, s) := by
          simp only [submit, hval, hfind, if_true]
        refine ⟨Or.inr (by rw [hsub]), ?_, ?_, ?_, ?_⟩
        · intro e2 hval2
          cases hval2
        · intro amt2 _ hfalse
          cases hfalse
        · intro id hid
          rw [hsub] at hid
          cases hid
        · intro hc
          rw [hsub]
          exact hc
      | none =>
        have hsub : submit true inp s =
            (SubmitResult.admitted s.nextId,
              { idem := (keyOf inp, s.nextId) :: s.idem,
                requests := s.requests ++ [⟨s.nextId, amt, inp.toAddress,
                  inp.tokenAddress, inp.network, keyOf inp, s.clock⟩],
                statuses := s.statuses ++ [(s.nextId, initialStatus)],
                pending := s.pending ++ [(partitionOf inp, s.nextId)],
                nextId := s.nextId + 1,
                clock := s.clock + 1 }) := by
          simp only [submit, hval, hfind, if_true]
        refine ⟨Or.inl ⟨s.nextId, by rw [hsub]⟩, ?_, ?_, ?_, ?_⟩
        · intro e2 hval2
          cases hval2
        · intro amt2 _ hfalse
          cases hfalse
        · intro id hid
          rw [hsub] at hid
          cases hid
          refine ⟨rfl, amt, rfl, ?_⟩
          rw [hsub]
        · intro hc
          rw [hsub]
          constructor
          · intro r hr
            simp only [List.mem_append, List.mem_singleton] at hr
            rcases hr with hr | hr
            · obtain ⟨q, hq1, hq2⟩ := hc.1 r hr
              exact ⟨q, List.mem_cons_of_mem _ hq1, hq2⟩
            · refine ⟨(keyOf inp, s.nextId), List.mem_cons_self _ _, ?_⟩
              rw [hr]
              exact ⟨rfl, rfl⟩
          · intro q hq
            simp only [List.mem_cons] at hq
            rcases hq with hq | hq
            · refine ⟨⟨s.nextId, amt, inp.toAddress, inp.tokenAddress,
                inp.network, keyOf inp, s.clock⟩, ?_, ?_⟩
              · simp
              · rw [hq]
                exact ⟨rfl, rfl⟩
            · obtain ⟨r, hr1, hr2⟩ := hc.2 q hq
              exact ⟨r, by simp [hr1], hr2⟩

/-- Claim C5 witness: the validation-failure clause at a request with a
malformed amount — the typed rejection is returned and the engine state
is untouched. -/
theorem submit_all_or_nothing_witness :
    submit true ⟨"abc", scenarioInput.toAddress, scenarioInput.tokenAddress,
      "polygon", none⟩ initState =
      (SubmitResult.rejected VErr.badAmount, initState) :=
  (submit_all_or_nothing true
    ⟨"abc", scenarioInput.toAddress, scenarioInput.tokenAddress,
      "polygon", none⟩ initState).2.1 VErr.badAmount rfl

/-! ## Claim C8: the pending count round-trip -/

/-- Erasing the first match removes exactly one match from the count. -/
lemma countP_eraseP {α : Type} (f : α → Bool) :
    ∀ (l : List α), (l.find? f).isSome = true →
      (l.eraseP f).countP f + 1 = l.countP f := by
  intro l
  induction l with
  | nil => intro h; simp at h
  | cons a l ih =>
    intro h
    by_cases ha : f a = true
    · rw [List.eraseP_cons_of_pos ha, List.countP_cons, ha]
      simp
    · have ha2 : f a = false := by simp at ha; exact ha
      have h2 : (l.find? f).isSome = true := by
        rw [List.find?_cons_of_neg _ (by simp [ha2])] at h
        exact h
      rw [List.eraseP_cons_of_neg (by simp [ha2]), List.countP_cons,
        List.countP_cons, ha2, ← ih h2]
      simp

/-- A successfully admitted `submit` determines the id and the whole
successor state. -/
lemma submit_admitted_shape (avail : Bool) (inp : SubmitInput)
    (s s1 : SysState) (id : Nat)
    (h : submit avail inp s = (SubmitResult.admitted id, s1)) :
    id = s.nextId ∧ ∃ amt, validate inp = Except.ok amt ∧
      s1 = { idem := (keyOf inp, s.nextId) :: s.idem,
             requests := s.requests ++ [⟨s.nextId, amt, inp.toAddress,
               inp.tokenAddress, inp.network, keyOf inp, s.clock⟩],
             statuses := s.statuses ++ [(s.nextId, initialStatus)],
             pending := s.pending ++ [(partitionOf inp, s.nextId)],
             nextId := s.nextId + 1,
             clock := s.clock + 1 } := by
  cases hval : validate inp with
  | error e =>
    simp only [submit, hval, Prod.mk.injEq] at h
    exact absurd h.1 (by simp)
  | ok amt =>
    cases avail with
    | false =>
      simp only [submit, hval, Bool.false_eq_true, if_false,
        Prod.mk.injEq] at h
      exact absurd h.1 (by simp)
    | true =>
      cases hfind : s.idem.find? (fun r => r.1 == keyOf inp) with
      | some q =>
        simp only [submit, hval, hfind, if_true, Prod.mk.injEq] at h
        exact absurd h.1 (by simp)
      | none =>
        simp only [submit, hval, hfind, if_true, Prod.mk.injEq] at h
        obtain ⟨h1, h2⟩ := h
        cases h1
        exact ⟨rfl, amt, rfl, h2.symm⟩

/-- A post-admission status event never touches the pending queues. -/
lemma txEvent_pending (th wid : Nat) (e : SEvent) (s s1 : SysState)
    (h : txEvent th wid e s = some s1) : s1.pending = s.pending := by
  cases hst : statusOf s wid with
  | none =>
    simp only [txEvent, hst] at h
    exact absurd h (by simp)
  | some st =>
    simp only [txEvent, hst] at h
    cases hstep : sstep th st e with
    | none => rw [hstep] at h; exact absurd h (by simp)
    | some st2 =>
      rw [hstep, Option.map_some'] at h
      cases h
      rfl

/-- A run of post-admission status events never touches the pending
queues. -/
lemma txEvents_pending (th wid : Nat) :
    ∀ (es : List SEvent) (s s' : SysState),
      txEvents th wid es s = some s' → s'.pending = s.pending
  | [], s, s', h => by
    simp [txEvents] at h
    rw [← h]
  | e :: es, s, s', h => by
    rw [txEvents] at h
    cases htx : txEvent th wid e s with
    | none => rw [htx] at h; exact absurd h (by simp)
    | some s1 =>
      rw [htx, Option.some_bind] at h
      rw [txEvents_pending th wid es s1 s' h, txEvent_pending th wid e s s1 htx]

/-- Claim C8: admitting a withdrawal increments its partition's pending
count by exactly one; once the Transaction Queue has dequeued on that
partition and the withdrawal has run to `CONFIRMED`, the pending count is
back at its prior value. -/
theorem pending_count_roundtrip (th : Nat) (inp : SubmitInput)
    (s : SysState) (id : Nat) (s1 : SysState)
    (hsub : submit true inp s = (SubmitResult.admitted id, s1)) :
    pendingCount s1 (partitionOf inp) =
      pendingCount s (partitionOf inp) + 1
    ∧ (∀ wid s2 es s3,
        dequeuePart th (partitionOf inp) s1 = some (wid, s2) →
        txEvents th wid es s2 = some s3 →
        (statusOf s3 wid).map WStatus.state = some CONFIRMED →
        pendingCount s3 (partitionOf inp) =
          pendingCount s (partitionOf inp)) := by
  obtain ⟨hid, amt, hval, hs1⟩ := submit_admitted_shape true inp s s1 id hsub
  have hcount1 : pendingCount s1 (partitionOf inp) =
      pendingCount s (partitionOf inp) + 1 := by
    rw [hs1]
    simp [pendingCount, List.countP_append, List.countP_cons]
  refine ⟨hcount1, ?_⟩
  intro wid s2 es s3 hdq htx _
  cases hfind : s1.pending.find? (fun q => q.1 == partitionOf inp) with
  | none =>
    simp only [dequeuePart, hfind] at hdq
    exact absurd hdq (by simp)
  | some q =>
    simp only [dequeuePart, hfind] at hdq
    cases htev : txEvent th q.2 SEvent.dequeue s1 with
    | none => rw [htev] at hdq; exact absurd hdq (by simp)
    | some s2' =>
      rw [htev, Option.map_some'] at hdq
      cases hdq
      have hp3 : s3.pending =
          s1.pending.eraseP (fun r => r.1 == partitionOf inp) :=
        txEvents_pending th q.2 es _ s3 htx
      have hsome :
          (s1.pending.find? (fun r => r.1 == partitionOf inp)).isSome = true := by
        rw [hfind]
        rfl
      have herase :=
        countP_eraseP (fun r => r.1 == partitionOf inp) s1.pending hsome
      unfold pendingCount at hcount1 ⊢
      rw [hp3]
      omega

/-- Claim C8 witness: the scenario withdrawal against the empty engine
state, dequeued, broadcast, included and confirmed at threshold 1. -/
theorem pending_count_roundtrip_witness :
    pendingCount scenarioS1 (partitionOf scenarioInput) =
      pendingCount initState (partitionOf scenarioInput) + 1
    ∧ pendingCount scenarioS4 (partitionOf scenarioInput) =
      pendingCount initState (partitionOf scenarioInput) :=
  ⟨(pending_count_roundtrip 1 scenarioInput initState 0 scenarioS1 rfl).1,
    (pending_count_roundtrip 1 scenarioInput initState 0 scenarioS1 rfl).2
      0 scenarioS2
      [SEvent.broadcastOk "0xabc", SEvent.included, SEvent.observeConfirm]
      scenarioS4 rfl rfl rfl⟩

/-! ## Claim C2: the per-partition nonce invariant -/

/-- Splitting a count along a second predicate. -/
lemma countP_and_split {α : Type} (p q : α → Bool) (l : List α) :
    l.countP p =
      l.countP (fun a => p a && q a) + l.countP (fun a => p a && !q a) := by
  induction l with
  | nil => rfl
  | cons a l ih =>
    simp only [List.countP_cons]
    cases hp : p a <;> cases hq : q a <;> simp [hp, hq] <;> omega

/-- A conjunction is counted at most as often as its left conjunct. -/
lemma countP_and_le {α : Type} (p q : α → Bool) (l : List α) :
    l.countP (fun a => p a && q a) ≤ l.countP p := by
  induction l with
  | nil => simp
  | cons a l ih =>
    simp only [List.countP_cons]
    cases hp : p a <;> cases hq : q a <;> simp [hp, hq] <;> omega

/-- When exactly one element satisfies `f`, counting `f && g` is decided
by whether that single element satisfies `g`. -/
lemma countP_and_of_unique {α : Type} (f g : α → Bool) :
    ∀ (l : List α) (t0 : α), l.find? f = some t0 → l.countP f = 1 →
      l.countP (fun a => f a && g a) = if g t0 = true then 1 else 0 := by
  intro l
  induction l with
  | nil => intro t0 hf _; simp at hf
  | cons a l ih =>
    intro t0 hf hc
    by_cases ha : f a = true
    · rw [List.find?_cons_of_pos _ ha] at hf
      injection hf with hf
      rw [List.countP_cons, if_pos ha] at hc
      have hl0 : l.countP f = 0 := by omega
      have hfg0 : l.countP (fun a => f a && g a) = 0 :=
        Nat.le_zero.mp (hl0 ▸ countP_and_le f g l)
      rw [List.countP_cons, hfg0, ← hf]
      cases hg : g a <;> simp [ha, hg]
    · rw [List.find?_cons_of_neg _ ha] at hf
      rw [List.countP_cons, if_neg ha] at hc
      rw [List.countP_cons, ih t0 hf (by omega)]
      have hfa : f a = false := by
        cases hfa2 : f a
        · rfl
        · exact absurd hfa2 ha
      simp [hfa]

/-- Counting an active-transaction predicate after a fee-bump
supersession: exactly the active transactions of the bumped withdrawal
drop out of the count. -/
lemma countP_supersedeFor (w : Nat) (Q : QTx → Bool) :
    ∀ (ts : List QTx),
      (supersedeFor w ts).countP (fun t => t.active && Q t) =
        ts.countP (fun t => t.active && Q t && !(t.withdrawalId == w)) := by
  intro ts
  induction ts with
  | nil => rfl
  | cons t ts ih =>
    simp only [supersedeFor, List.map_cons, List.countP_cons]
    by_cases hc : (t.active && (t.withdrawalId == w)) = true
    · rw [if_pos hc]
      have h1 : (({ t with superseded := true } : QTx).active &&
          Q { t with superseded := true }) = false := by
        simp [QTx.active]
      have h2 : (t.active && Q t && !(t.withdrawalId == w)) = false := by
        have hc2 := hc
        simp only [Bool.and_eq_true] at hc2
        simp [hc2.2]
      rw [h1, h2]
      simpa [supersedeFor] using ih
    · rw [if_neg hc]
      have h2 : (t.active && Q t && !(t.withdrawalId == w)) =
          (t.active && Q t) := by
        cases hta : t.active <;> cases htw : (t.withdrawalId == w) <;>
          simp_all
      rw [h2]
      simpa [supersedeFor] using ih

/-- Specialisation of `countP_supersedeFor` to a nonce predicate. -/
lemma countP_supersedeFor_nonce (w k : Nat) (ts : List QTx) :
    (supersedeFor w ts).countP (fun t => t.active && t.nonce == k) =
      ts.countP
        (fun t => t.active && t.nonce == k && !(t.withdrawalId == w)) :=
  countP_supersedeFor w (fun t => t.nonce == k) ts

/-- Specialisation of `countP_supersedeFor` to a withdrawal-id predicate. -/
lemma countP_supersedeFor_wid (w w' : Nat) (ts : List QTx) :
    (supersedeFor w ts).countP (fun t => t.active && t.withdrawalId == w') =
      ts.countP
        (fun t => t.active && t.withdrawalId == w' &&
          !(t.withdrawalId == w)) :=
  countP_supersedeFor w (fun t => t.withdrawalId == w') ts

/-- Both sequencer operations preserve the nonce invariant. -/
lemma tstep_preserves_inv (n0 : Nat) (s s' : PartState) (e : TEvent)
    (hstep : tstep s e = some s') (hinv : PartInv n0 s) : PartInv n0 s' := by
  obtain ⟨h0, h1, h2⟩ := hinv
  cases e with
  | alloc w =>
    by_cases hg : s.txs.all (fun t => t.withdrawalId != w) = true
    case neg =>
      simp only [tstep, hg, Bool.false_eq_true, if_false] at hstep
      exact absurd hstep (by simp)
    case pos =>
      simp only [tstep, hg, if_true] at hstep
      cases hstep
      refine ⟨by simp; omega, ?_, ?_⟩
      · intro k
        unfold activeNonceCount at h1 ⊢
        simp only [List.countP_append]
        rw [h1 k]
        have hnew : List.countP (fun t => t.active && t.nonce == k)
            ([⟨w, s.nextNonce, false⟩] : List QTx) =
            if s.nextNonce = k then 1 else 0 := by
          simp [List.countP_cons, QTx.active]
        rw [hnew]
        by_cases hk : s.nextNonce = k
        · subst hk
          have hfalse : ¬(n0 ≤ s.nextNonce ∧ s.nextNonce < s.nextNonce) := by
            omega
          have htrue : n0 ≤ s.nextNonce ∧ s.nextNonce < s.nextNonce + 1 := by
            omega
          simp only [hfalse, if_false, htrue, if_true, if_pos]
          simp
        · have hiff : (n0 ≤ k ∧ k < s.nextNonce) ↔
              (n0 ≤ k ∧ k < s.nextNonce + 1) := by
            omega
          rw [if_neg hk]
          by_cases hr : n0 ≤ k ∧ k < s.nextNonce
          · rw [if_pos hr, if_pos (hiff.mp hr)]
          · rw [if_neg hr, if_neg (fun h => hr (hiff.mpr h))]
      · intro w'
        unfold activeWidCount at h2 ⊢
        simp only [List.countP_append]
        by_cases hww : w = w'
        · subst hww
          have hzero : s.txs.countP (fun t => t.active && t.withdrawalId == w) = 0 := by
            rw [List.countP_eq_zero]
            intro t ht
            have := (List.all_eq_true.mp hg) t ht
            simp at this
            simp [this]
          rw [hzero]
          simp [List.countP_cons, QTx.active]
        · have hone : List.countP (fun t => t.active && t.withdrawalId == w')
              ([⟨w, s.nextNonce, false⟩] : List QTx) = 0 := by
            simp [List.countP_cons, QTx.active, hww]
          rw [hone]
          have := h2 w'
          omega
  | bump w =>
    cases hfind : s.txs.find? (fun t => t.active && t.withdrawalId == w) with
    | none =>
      simp only [tstep, hfind] at hstep
      exact absurd hstep (by simp)
    | some t0 =>
      simp only [tstep, hfind] at hstep
      cases hstep
      have hmem := List.mem_of_find?_eq_some hfind
      have ht0 := List.find?_some hfind
      have hcw : s.txs.countP (fun t => t.active && t.withdrawalId == w) = 1 := by
        have hpos : 0 < s.txs.countP (fun t => t.active && t.withdrawalId == w) :=
          List.countP_pos_iff.mpr ⟨t0, hmem, ht0⟩
        have hle := h2 w
        unfold activeWidCount at hle
        omega
      refine ⟨h0, ?_, ?_⟩
      · intro k
        unfold activeNonceCount at h1 ⊢
        simp only [List.countP_append]
        rw [countP_supersedeFor_nonce w k]
        have hsplit : s.txs.countP (fun t => t.active && t.nonce == k) =
            s.txs.countP
              (fun t => (t.active && t.nonce == k) && t.withdrawalId == w) +
            s.txs.countP
              (fun t => (t.active && t.nonce == k) && !(t.withdrawalId == w)) :=
          countP_and_split _ _ s.txs
        have huniq : s.txs.countP
            (fun t => (t.active && t.withdrawalId == w) && t.nonce == k) =
            if (t0.nonce == k) = true then 1 else 0 :=
          countP_and_of_unique _ _ s.txs t0 hfind hcw
        have hcongr : s.txs.countP
            (fun t => (t.active && t.nonce == k) && t.withdrawalId == w) =
            s.txs.countP
              (fun t => (t.active && t.withdrawalId == w) && t.nonce == k) := by
          refine List.countP_congr ?_
          intro x _
          cases hx1 : x.active <;> cases hx2 : (x.nonce == k) <;>
            cases hx3 : (x.withdrawalId == w) <;> simp [hx1, hx2, hx3]
        have hnew : List.countP (fun t => t.active && t.nonce == k)
            ([⟨w, t0.nonce, false⟩] : List QTx) =
            if (t0.nonce == k) = true then 1 else 0 := by
          simp only [List.countP_cons, List.countP_nil, QTx.active]
          cases hk : (t0.nonce == k) <;> simp [hk]
        rw [hnew]
        rw [hcongr, huniq] at hsplit
        rw [h1 k] at hsplit
        rw [hsplit]
        exact Nat.add_comm _ _
      · intro w'
        unfold activeWidCount at h2 ⊢
        simp only [List.countP_append]
        rw [countP_supersedeFor_wid w w']
        by_cases hww : w' = w
        · subst hww
          have hzero : s.txs.countP
              (fun t => t.active && t.withdrawalId == w' &&
                !(t.withdrawalId == w')) = 0 := by
            rw [List.countP_eq_zero]
            intro t _
            cases hx1 : t.active <;> cases hx2 : (t.withdrawalId == w') <;>
              simp [hx1, hx2]
          rw [hzero]
          simp [List.countP_cons, QTx.active]
        · have hcongr2 : s.txs.countP
              (fun t => t.active && t.withdrawalId == w' &&
                !(t.withdrawalId == w)) =
              s.txs.countP (fun t => t.active && t.withdrawalId == w') := by
            refine List.countP_congr ?_
            intro x _
            cases hx1 : x.active <;> cases hx2 : (x.withdrawalId == w') <;>
              simp [hx1, hx2]
            have : x.withdrawalId = w' := by simpa using hx2
            simp [this, hww]
          rw [hcongr2]
          have hone : List.countP (fun t => t.active && t.withdrawalId == w')
              ([⟨w, t0.nonce, false⟩] : List QTx) = 0 := by
            simp [List.countP_cons, QTx.active]
            intro h
            exact absurd h.symm hww
          rw [hone]
          have := h2 w'
          omega

/-- The sequencer's start-up state satisfies the nonce invariant. -/
lemma initPart_inv (n0 : Nat) : PartInv n0 (initPart n0) := by
  refine ⟨Nat.le_refl n0, ?_, ?_⟩
  · intro k
    have : ¬(n0 ≤ k ∧ k < n0) := by omega
    simp [activeNonceCount, initPart, this]
  · intro w
    simp [activeWidCount, initPart]

/-- Every reachable sequencer state satisfies the nonce invariant. -/
lemma runT_inv (n0 : Nat) :
    ∀ (es : List TEvent) (s s' : PartState),
      runTEvents s es = some s' → PartInv n0 s → PartInv n0 s'
  | [], s, s', h, hi => by
    simp [runTEvents] at h
    exact h ▸ hi
  | e :: es, s, s', h, hi => by
    rw [runTEvents] at h
    cases hstep : tstep s e with
    | none => rw [hstep] at h; exact absurd h (by simp)
    | some s1 =>
      rw [hstep, Option.some_bind] at h
      exact runT_inv n0 es s1 s' h (tstep_preserves_inv n0 s s1 e hstep hi)

/-- Claim C2: in every reachable state of a partition's sequencer, the
nonces of its active (non-superseded) `QueuedTransaction`s are exactly
the contiguous range from the start-up nonce `n0` up to `nextNonce` —
gapless and strictly increasing when sorted — with no two active
transactions sharing a nonce (the nonce list has no duplicates), and at
most one active `QueuedTransaction` per withdrawal id. -/
theorem nonce_sequence_invariant (n0 : Nat) (es : List TEvent)
    (s : PartState) (h : runTEvents (initPart n0) es = some s) :
    (∀ k, k ∈ activeNonces s ↔ (n0 ≤ k ∧ k < s.nextNonce))
    ∧ (activeNonces s).Nodup
    ∧ (∀ w, activeWidCount s w ≤ 1) := by
  obtain ⟨h0, h1, h2⟩ := runT_inv n0 es (initPart n0) s h (initPart_inv n0)
  refine ⟨?_, ?_, h2⟩
  · intro k
    have hmem : k ∈ activeNonces s ↔ 0 < activeNonceCount s k := by
      unfold activeNonces activeNonceCount
      constructor
      · intro hk
        obtain ⟨t, ht, hnk⟩ := List.mem_map.mp hk
        obtain ⟨htmem, htact⟩ := List.mem_filter.mp ht
        exact List.countP_pos_iff.mpr ⟨t, htmem, by simp [htact, hnk]⟩
      · intro hk
        obtain ⟨t, htmem, htp⟩ := List.countP_pos_iff.mp hk
        simp only [Bool.and_eq_true] at htp
        obtain ⟨htact, hnk⟩ := htp
        exact List.mem_map.mpr
          ⟨t, List.mem_filter.mpr ⟨htmem, htact⟩, by simpa using hnk⟩
    rw [hmem, h1 k]
    by_cases hr : n0 ≤ k ∧ k < s.nextNonce
    · simp [hr]
    · simp [hr]
  · rw [List.nodup_iff_count_le_one]
    intro k
    rw [List.count_eq_countP]
    unfold activeNonces
    rw [List.countP_map, List.countP_filter]
    have hcongr : (s.txs).countP
        (fun a => ((fun x => x == k) ∘ QTx.nonce) a && QTx.active a) =
        (s.txs).countP (fun t => t.active && t.nonce == k) := by
      refine List.countP_congr ?_
      intro x _
      cases hx1 : x.active <;> cases hx2 : (x.nonce == k) <;>
        simp [hx1, hx2, Function.comp]
    rw [hcongr]
    have := h1 k
    unfold activeNonceCount at this
    rw [this]
    by_cases hr : n0 ≤ k ∧ k < s.nextNonce
    · simp [hr]
    · simp [hr]

/-- Claim C2 witness: allocate two withdrawals and fee-bump the first,
from start-up nonce 5. -/
theorem nonce_sequence_invariant_witness :
    (∀ k, k ∈ activeNonces ⟨[⟨1, 5, true⟩, ⟨2, 6, false⟩, ⟨1, 5, false⟩], 7⟩ ↔
      (5 ≤ k ∧ k < (⟨[⟨1, 5, true⟩, ⟨2, 6, false⟩, ⟨1, 5, false⟩], 7⟩ :
        PartState).nextNonce))
    ∧ (activeNonces ⟨[⟨1, 5, true⟩, ⟨2, 6, false⟩, ⟨1, 5, false⟩], 7⟩).Nodup
    ∧ (∀ w, activeWidCount
        ⟨[⟨1, 5, true⟩, ⟨2, 6, false⟩, ⟨1, 5, false⟩], 7⟩ w ≤ 1) :=
  nonce_sequence_invariant 5 [TEvent.alloc 1, TEvent.alloc 2, TEvent.bump 1]
    ⟨[⟨1, 5, true⟩, ⟨2, 6, false⟩, ⟨1, 5, false⟩], 7⟩ rfl

end Withdrawal
